import Mathlib

/-!
Shallow embedding of the contact-extraction pipeline of `dejobsextract.py`
(Telegram chat-export JSON → data-engineer-family outreach contacts).

Strings are modelled as Lean `String`s, i.e. lists of Unicode code points,
which matches Python's code-point indexing and slicing.  Python's
character-level operations (`str.lower`, `str.title`, the regex classes
`\w` and `\s`) are modelled on ASCII; every literal and character class in
the source patterns is ASCII, so this covers the behaviour the pipeline
exercises.  Each regex of the source is embedded as a dedicated matcher
that follows Python's leftmost-match and greedy/backtracking semantics for
that concrete pattern.
-/

namespace DEJobs

/-- ASCII uppercase letter `A`–`Z`. -/
def isUpperAZ (c : Char) : Bool := 65 ≤ c.toNat && c.toNat ≤ 90

/-- ASCII lowercase letter `a`–`z`. -/
def isLowerAZ (c : Char) : Bool := 97 ≤ c.toNat && c.toNat ≤ 122

/-- ASCII letter: the regex class `[A-Za-z]`. -/
def isAlphaC (c : Char) : Bool := isUpperAZ c || isLowerAZ c

/-- ASCII digit `0`–`9`. -/
def isDigitC (c : Char) : Bool := 48 ≤ c.toNat && c.toNat ≤ 57

/-- Python regex `\w` (ASCII): letter, digit or underscore. -/
def isWordC (c : Char) : Bool := isAlphaC c || isDigitC c || c.toNat = 95

/-- Python `\s` / bare `str.strip()` whitespace:
space, `\t`, `\n`, `\r`, `\x0b`, `\x0c`. -/
def isSpaceC (c : Char) : Bool :=
  c.toNat = 32 || c.toNat = 9 || c.toNat = 10 || c.toNat = 13 ||
  c.toNat = 11 || c.toNat = 12

/-- Python `str.lower` on one character (ASCII). -/
def lowerChar (c : Char) : Char :=
  if isUpperAZ c then Char.ofNat (c.toNat + 32) else c

/-- Python `str.upper` on one character (ASCII). -/
def upperChar (c : Char) : Char :=
  if isLowerAZ c then Char.ofNat (c.toNat - 32) else c

/-- Python `str.lower` on a whole string. -/
def lowerStr (s : String) : String := ⟨s.data.map lowerChar⟩

/-- Drop matching characters from the end of a list. -/
def dropEndWhile (p : Char → Bool) (l : List Char) : List Char :=
  (l.reverse.dropWhile p).reverse

/-- Python `str.strip()`: remove whitespace at both ends. -/
def stripWsL (l : List Char) : List Char :=
  dropEndWhile isSpaceC (l.dropWhile isSpaceC)

/-- Python `str.strip(chars)`: remove characters of `cset` at both ends. -/
def stripSetL (cset : List Char) (l : List Char) : List Char :=
  dropEndWhile (· ∈ cset) (l.dropWhile (· ∈ cset))

/-- `re.sub(r"\s+", " ", s)`, scanning with a flag telling whether the
previous character was whitespace: each maximal whitespace run contributes
one space (at its first character), every other character passes through. -/
def collapseGo (prevSpace : Bool) : List Char → List Char
  | [] => []
  | c :: cs =>
    if isSpaceC c then
      (if prevSpace then [] else [' ']) ++ collapseGo true cs
    else c :: collapseGo false cs

/-- `re.sub(r"\s+", " ", s)`: replace every maximal whitespace run by a
single space. -/
def collapseWsL (l : List Char) : List Char := collapseGo false l

/-- Is `pat` a code-point prefix of `l`? -/
def headMatch : List Char → List Char → Bool
  | [], _ => true
  | _ :: _, [] => false
  | p :: ps, c :: cs => p = c && headMatch ps cs

/-- Python `str.find`: index of the first occurrence of `pat` in `l`
(`none` when absent; the empty pattern occurs at index 0). -/
def findSub (pat : List Char) : List Char → Option Nat
  | [] => if pat.isEmpty then some 0 else none
  | c :: cs =>
    if headMatch pat (c :: cs) then some 0
    else (findSub pat cs).map (· + 1)

/-- Python `str.title` (ASCII model): a letter directly following a letter is
lowercased, any other letter is uppercased, non-letters pass through and
restart a word. -/
def titleGo (prevAlpha : Bool) : List Char → List Char
  | [] => []
  | c :: cs =>
    (if isAlphaC c then (if prevAlpha then lowerChar c else upperChar c) else c)
      :: titleGo (isAlphaC c) cs

/-- Python `str.title` on a string. -/
def titleStr (s : String) : String := ⟨titleGo false s.data⟩

/-- JSON-like Python values: the document tree that `json.load` produces. -/
inductive JsonVal where
  | null
  | bool (b : Bool)
  | int (n : Int)
  | str (s : String)
  | list (items : List JsonVal)
  | obj (fields : List (String × JsonVal))

/-- A single-quote character (`'`). -/
def squo : Char := Char.ofNat 39

/-- A double-quote character (`"`). -/
def dquo : Char := Char.ofNat 34

/-- Python string `repr` quoting: single quotes, switching to double quotes
when the string contains a single quote but no double quote.  (Escape
sequences inside the string are not modelled; no claim exercises them.) -/
def quoteStr (s : String) : String :=
  if squo ∈ s.data && dquo ∉ s.data then ⟨dquo :: s.data ++ [dquo]⟩
  else ⟨squo :: s.data ++ [squo]⟩

mutual

/-- Python `repr` on a JSON-like value: `None`/`True`/`False`, decimal
integers, quoted strings, `[...]` lists, `\x7b...\x7d` dicts. -/
def pyRepr : JsonVal → String
  | .null => "None"
  | .bool true => "True"
  | .bool false => "False"
  | .int n => toString n
  | .str s => quoteStr s
  | .list items => "[" ++ String.intercalate ", " (pyReprList items) ++ "]"
  | .obj fields =>
      "\x7b" ++ String.intercalate ", " (pyReprFields fields) ++ "\x7d"

/-- `repr` of each element of a Python list. -/
def pyReprList : List JsonVal → List String
  | [] => []
  | v :: vs => pyRepr v :: pyReprList vs

/-- `repr` of each `key: value` entry of a Python dict. -/
def pyReprFields : List (String × JsonVal) → List String
  | [] => []
  | (k, v) :: kvs => (quoteStr k ++ ": " ++ pyRepr v) :: pyReprFields kvs

end

/-- Python `str` on a JSON-like value: identity on strings, `repr`-style
rendering otherwise (`str(None) = "None"`). -/
def pyStr : JsonVal → String
  | .str s => s
  | v => pyRepr v

/-- Python `dict.get(key)` on a JSON value: `none` when the receiver is not
a dict or the key is absent. -/
def jsonGet (v : JsonVal) (key : String) : Option JsonVal :=
  match v with
  | .obj fields => fields.lookup key
  | _ => none

/-- `flatten_text` (dejobsextract.py:18): a message `text` field — `None`, a
plain string, or a list whose items are strings, fragment dicts (whose
`"text"` entry is taken, defaulting to `""`, and passed through `str`), or
arbitrary values passed through `str` — flattened to a single string with no
separators. -/
def flatten_text : JsonVal → String
  | .null => ""
  | .str s => s
  | .list items =>
      String.join (items.map fun item =>
        match item with
        | .str s => s
        | .obj fields => pyStr ((fields.lookup "text").getD (.str ""))
        | other => pyStr other)
  | other => pyStr other

example : flatten_text (.list [.str "Hello ", .obj [("text", .str "World")], .str "!"])
    = "Hello World!" := by decide

example : flatten_text (.list [.str "a ", .obj [("text", .null)]]) = "a None" := by
  decide

/-- Case-insensitive literal match: consume `pat` (given in lowercase) from
the front of `l`, returning the remainder on success. -/
def litCI : List Char → List Char → Option (List Char)
  | [], l => some l
  | _ :: _, [] => none
  | p :: ps, c :: cs => if lowerChar c = p then litCI ps cs else none

/-- Greedy `\W*`: skip the maximal run of non-word characters. -/
def skipNonWord (l : List Char) : List Char := l.dropWhile (fun c => !isWordC c)

/-- Greedy `[\s_-]*`: skip the maximal run of whitespace/underscore/hyphen. -/
def skipSpUH (l : List Char) : List Char :=
  l.dropWhile (fun c => isSpaceC c || c.toNat = 95 || c.toNat = 45)

/-- `\b` directly after a word character: the next char is non-word or the
string ends. -/
def wbAfter : List Char → Bool
  | [] => true
  | c :: _ => !isWordC c

/-- `\b` directly before a word character: the previous char is absent or
non-word. -/
def wbBefore : Option Char → Bool
  | none => true
  | some c => !isWordC c

/-- A branch beginning with a letter-initial literal, continuing with `k`. -/
def leadLit (w : List Char) (k : List Char → Bool) (l : List Char) : Bool :=
  match litCI w l with
  | some r => k r
  | none => false

/-- `\W*engineer\b`. -/
def deTailEng (r : List Char) : Bool :=
  leadLit "engineer".data wbAfter (skipNonWord r)

/-- `\W*data\W*engineer\b`. -/
def deTailDataEng (r : List Char) : Bool :=
  leadLit "data".data deTailEng (skipNonWord r)

/-- `(?:engineer|dev|developer)\b`. -/
def deSuffixEDD (r : List Char) : Bool :=
  leadLit "engineer".data wbAfter r || leadLit "dev".data wbAfter r ||
    leadLit "developer".data wbAfter r

/-- `DE_FAMILY_RE` alternative 1 after its leading `\b`:
`data[\s_-]*engineer\b`. -/
def deBody1 : List Char → Bool :=
  leadLit "data".data fun r => leadLit "engineer".data wbAfter (skipSpUH r)

/-- Alternative 2: `data\W*eng\b`. -/
def deBody2 : List Char → Bool :=
  leadLit "data".data fun r => leadLit "eng".data wbAfter (skipNonWord r)

/-- Alternative 3: `de\b\W*(?:role|position|opening|job|hiring|req|requirement)?\b`.
Once `de\b` has matched, the zero-width `\W*` together with the empty
optional group re-satisfies the final `\b` at the very same boundary (word
char `e` on the left, non-word char or end on the right), so the tail after
`de\b` accepts unconditionally. -/
def deBody3 : List Char → Bool :=
  leadLit "de".data wbAfter

/-- Alternative 4: `big\W*data\W*engineer\b`. -/
def deBody4 : List Char → Bool :=
  leadLit "big".data deTailDataEng

/-- Alternative 5: `etl\W*(?:engineer|developer|dev)\b`. -/
def deBody5 : List Char → Bool :=
  leadLit "etl".data fun r =>
    let r2 := skipNonWord r
    leadLit "engineer".data wbAfter r2 || leadLit "developer".data wbAfter r2 ||
      leadLit "dev".data wbAfter r2

/-- Alternative 6: `data\W*(?:warehouse|warehousing)\W*(?:engineer|dev|developer)\b`. -/
def deBody6 : List Char → Bool :=
  leadLit "data".data fun r =>
    let r2 := skipNonWord r
    leadLit "warehouse".data (fun r3 => deSuffixEDD (skipNonWord r3)) r2 ||
      leadLit "warehousing".data (fun r3 => deSuffixEDD (skipNonWord r3)) r2

/-- Alternative 7: `dwh\W*(?:engineer|dev|developer)\b`. -/
def deBody7 : List Char → Bool :=
  leadLit "dwh".data fun r => deSuffixEDD (skipNonWord r)

/-- Alternative 8: `analytics\W*engineer\b`. -/
def deBody8 : List Char → Bool :=
  leadLit "analytics".data deTailEng

/-- Alternative 9: `(?:bi|business\W*intelligence)\W*engineer\b`. -/
def deBody9 (l : List Char) : Bool :=
  leadLit "bi".data deTailEng l ||
    leadLit "business".data
      (fun r => leadLit "intelligence".data deTailEng (skipNonWord r)) l

/-- Alternative 10: `data\W*platform\W*engineer\b`. -/
def deBody10 : List Char → Bool :=
  leadLit "data".data fun r => leadLit "platform".data deTailEng (skipNonWord r)

/-- Alternative 11: `data\W*pipeline\W*engineer\b`. -/
def deBody11 : List Char → Bool :=
  leadLit "data".data fun r => leadLit "pipeline".data deTailEng (skipNonWord r)

/-- Alternative 12: `(?:aws|gcp|google\W*cloud|azure)\W*data\W*engineer\b`. -/
def deBody12 (l : List Char) : Bool :=
  leadLit "aws".data deTailDataEng l || leadLit "gcp".data deTailDataEng l ||
    leadLit "google".data (fun r => leadLit "cloud".data deTailDataEng (skipNonWord r)) l ||
    leadLit "azure".data deTailDataEng l

/-- Alternative 13: `cloud\W*data\W*engineer\b`. -/
def deBody13 : List Char → Bool :=
  leadLit "cloud".data deTailDataEng

/-- Alternative 14: `(?:spark|hadoop|kafka)\W*engineer\b`. -/
def deBody14 (l : List Char) : Bool :=
  leadLit "spark".data deTailEng l || leadLit "hadoop".data deTailEng l ||
    leadLit "kafka".data deTailEng l

/-- The fourteen alternatives of `DE_FAMILY_RE` (dejobsextract.py:41) after
their leading `\b`.  Every `\W*`/`[\s_-]*` in the pattern is immediately
followed by a letter-initial literal; letters lie outside both skip classes,
so the greedy skips are deterministic (a shorter skip would leave a
skip-class character where a letter is required). -/
def deBodies (l : List Char) : Bool :=
  deBody1 l || deBody2 l || deBody3 l || deBody4 l || deBody5 l ||
    deBody6 l || deBody7 l || deBody8 l || deBody9 l || deBody10 l ||
    deBody11 l || deBody12 l || deBody13 l || deBody14 l

/-- Scan for `DE_FAMILY_RE` left to right: at each position, a leading word
boundary plus one of the alternatives. -/
def deFamilyGo (prev : Option Char) : List Char → Bool
  | [] => false
  | c :: cs => (wbBefore prev && deBodies (c :: cs)) || deFamilyGo (some c) cs

/-- `DE_FAMILY_RE.search(s) is not None`: the role-family classifier. -/
def DE_FAMILY_search (s : String) : Bool := deFamilyGo none s.data

example : DE_FAMILY_search "engineer" = false := by decide
example : DE_FAMILY_search "data engineer" = true := by decide
example : DE_FAMILY_search "Data-Engineer" = true := by decide
example : DE_FAMILY_search "dataengineer" = true := by decide
example : DE_FAMILY_search "decode" = false := by decide
example : DE_FAMILY_search "hire a DE now" = true := by decide
example : DE_FAMILY_search "ETL developer" = true := by decide
example : DE_FAMILY_search "ETL engineering" = false := by decide
example : DE_FAMILY_search "data warehousing developer" = true := by decide
example : DE_FAMILY_search "business intelligence engineer" = true := by decide
example : DE_FAMILY_search "google cloud data engineer" = true := by decide
example : DE_FAMILY_search "spark  ,engineer" = true := by decide
example : DE_FAMILY_search "data;;engineer" = false := by decide
example : DE_FAMILY_search "dataXengineer" = false := by decide
example : DE_FAMILY_search "123 456!" = false := by decide

/-- `EMAIL_RE` local-part class `[a-z0-9._%+-]` under `(?i)`. -/
def isLocalC (c : Char) : Bool :=
  isAlphaC c || isDigitC c || c.toNat = 46 || c.toNat = 95 || c.toNat = 37 ||
    c.toNat = 43 || c.toNat = 45

/-- `EMAIL_RE` domain class `[a-z0-9.-]` under `(?i)`. -/
def isDomC (c : Char) : Bool :=
  isAlphaC c || isDigitC c || c.toNat = 46 || c.toNat = 45

/-- The lookaround class `[\w.+-]` of `EMAIL_RE`. -/
def isEmailBoundaryC (c : Char) : Bool :=
  isWordC c || c.toNat = 46 || c.toNat = 43 || c.toNat = 45

/-- The negative lookahead `(?![\w.+-])`. -/
def emailLookaheadOK : List Char → Bool
  | [] => true
  | c :: _ => !isEmailBoundaryC c

/-- Backtracking over the greedy domain run `[a-z0-9.-]+` of `EMAIL_RE`: try
`d` consumed characters, largest first.  After them the pattern needs a
literal `.`, then `[a-z]{2,}` — whose greedy run cannot shrink, since a
shorter run would put a letter under the negative lookahead — then
`(?![\w.+-])`.  Returns the character count of the whole domain side
(`d + 1 + tld`). -/
def emailDomBack (r3 : List Char) : Nat → Option Nat
  | 0 => none
  | d + 1 =>
    match r3.drop (d + 1) with
    | c :: r4 =>
      if c.toNat = 46 then
        let tld := (r4.takeWhile isAlphaC).length
        if 2 ≤ tld && emailLookaheadOK (r4.drop tld) then some (d + 1 + 1 + tld)
        else emailDomBack r3 d
      else emailDomBack r3 d
    | [] => emailDomBack r3 d

/-- Try `EMAIL_RE` at the current position (`prev` is the preceding
character): negative lookbehind `(?<![\w.+-])`, greedy `[a-z0-9._%+-]+`
(deterministic — `@` is outside the class, so only the maximal run can be
followed by `@`), literal `@`, then the domain side with backtracking.
Returns the length of the match. -/
def matchEmailAt (prev : Option Char) (l : List Char) : Option Nat :=
  if (prev.map isEmailBoundaryC).getD false then none
  else
    let lrun := (l.takeWhile isLocalC).length
    if lrun = 0 then none
    else
      match l.drop lrun with
      | c :: r3 =>
        if c.toNat = 64 then
          match emailDomBack r3 (r3.takeWhile isDomC).length with
          | some dlen => some (lrun + 1 + dlen)
          | none => none
        else none
      | [] => none

/-- `EMAIL_RE.finditer`: left-to-right non-overlapping scan, resuming after
each match.  `fuel` bounds the recursion; `length + 1` always suffices since
every step consumes at least one character. -/
def emailScan (prev : Option Char) (l : List Char) : Nat → List (List Char)
  | 0 => []
  | fuel + 1 =>
    match l with
    | [] => []
    | c :: cs =>
      match matchEmailAt prev (c :: cs) with
      | some n => l.take n :: emailScan (l.take n).getLast? (l.drop n) fuel
      | none => emailScan (some c) cs fuel

/-- All raw `EMAIL_RE` matches of `s`, in order. -/
def EMAIL_finditer (s : String) : List String :=
  (emailScan none s.data (s.data.length + 1)).map (⟨·⟩)

/-- The punctuation set of `.strip(".,;:()[]\x7b\x7d<>\"'")` applied to each
raw match. -/
def emailStripSet : List Char :=
  ['.', ',', ';', ':', '(', ')', '[', ']', Char.ofNat 123, Char.ofNat 125,
   '<', '>', dquo, squo]

/-- `extract_emails_list` (dejobsextract.py:97): each `EMAIL_RE` match,
stripped of surrounding whitespace and of boundary punctuation, kept when
nonempty and its lowercase form is unseen (first occurrence wins). -/
def extract_emails_list (text : String) : List String :=
  let step := fun (st : List String × List String) (m : String) =>
    let e : String := ⟨stripSetL emailStripSet (stripWsL m.data)⟩
    if e ≠ "" ∧ lowerStr e ∉ st.1 then (lowerStr e :: st.1, st.2 ++ [e]) else st
  ((EMAIL_finditer text).foldl step ([], [])).2

example : extract_emails_list "contact: jane.doe@example.com." = [] := by decide
example : extract_emails_list "contact: jane.doe@example.com"
    = ["jane.doe@example.com"] := by decide
example : extract_emails_list "notanemail@@x" = [] := by decide
example : extract_emails_list "(jane@x.com)" = ["jane@x.com"] := by decide
example : extract_emails_list "see .foo@bar.com ok" = ["foo@bar.com"] := by decide
example : extract_emails_list "a@x.com b@y.org A@X.COM" = ["a@x.com", "b@y.org"] := by
  decide
example : extract_emails_list "x@a.b.co.uk,y" = ["x@a.b.co.uk"] := by decide
example : extract_emails_list "a@x.com.b@y.org" = ["x.com.b@y.org"] := by decide
example : extract_emails_list "weird@...com" = ["weird@...com"] := by decide
example : extract_emails_list "a@x.coM2" = [] := by decide
example : extract_emails_list "Ab@Cd.EF" = ["Ab@Cd.EF"] := by decide
example : extract_emails_list "mail a-b@c-d.io; done" = ["a-b@c-d.io"] := by decide

/-- `NAME_NEAR_EMAIL_RE` continuation class `[A-Za-z .'-]`:
letters, space, dot, single quote, hyphen. -/
def isNameC (c : Char) : Bool :=
  isAlphaC c || c.toNat = 32 || c.toNat = 46 || c.toNat = 39 || c.toNat = 45

/-- Does the remainder match `\s*<?\s*$`: every character whitespace or `<`,
with at most one `<`? -/
def nameSuffixOK (l : List Char) : Bool :=
  l.all (fun c => isSpaceC c || c.toNat = 60) &&
    (l.filter (fun c => c.toNat = 60)).length ≤ 1

/-- At a fixed start (`c` then `cs`), the greedy `[A-Za-z .'-]{1,40}` of
`NAME_NEAR_EMAIL_RE`, longest first, each length followed by `\s*<?\s*$`.
Returns group 1 on success. -/
def nameTryLen (c : Char) (cs : List Char) : Nat → Option (List Char)
  | 0 => none
  | k + 1 =>
    if (cs.take (k + 1)).length = k + 1 && (cs.take (k + 1)).all isNameC &&
        nameSuffixOK (cs.drop (k + 1)) then
      some (c :: cs.take (k + 1))
    else nameTryLen c cs k

/-- `NAME_NEAR_EMAIL_RE.search` (dejobsextract.py:108): leftmost start
position whose leading character is a letter and admits a match; group 1. -/
def nameNearGo : List Char → Option (List Char)
  | [] => none
  | c :: cs =>
    if isAlphaC c then
      match nameTryLen c cs (min 40 cs.length) with
      | some g => some g
      | none => nameNearGo cs
    else nameNearGo cs

/-- The separator class `[\(\[\{<,:;|\-]` of the pre-email window cleanup. -/
def isSepC (c : Char) : Bool :=
  c.toNat = 40 || c.toNat = 91 || c.toNat = 123 || c.toNat = 60 ||
    c.toNat = 44 || c.toNat = 58 || c.toNat = 59 || c.toNat = 124 ||
    c.toNat = 45

/-- Does `l` as a whole match `[\(\[\{<,:;|\-]+\s*$`: a nonempty separator
run, then only whitespace?  No other split of `l` can match, since the
separator class contains no whitespace character. -/
def sepSuffixMatches (l : List Char) : Bool :=
  let run := l.takeWhile isSepC
  !run.isEmpty && (l.drop run.length).all isSpaceC

/-- `re.sub(r"[\(\[\{<,:;|\-]+\s*$", "", left)`: delete the suffix starting
at the leftmost position from which the whole remainder matches the
end-anchored pattern. -/
def subTrailingSep : List Char → List Char
  | [] => []
  | c :: cs => if sepSuffixMatches (c :: cs) then [] else c :: subTrailingSep cs

/-- The strip set of `first.strip(".,;:-_()[]\x7b\x7d<>\"'")`. -/
def nameStripSet : List Char :=
  ['.', ',', ';', ':', '-', '_', '(', ')', '[', ']', Char.ofNat 123,
   Char.ofNat 125, '<', '>', dquo, squo]

/-- The `Name <email>` proximity branch of `guess_first_name`
(dejobsextract.py:112-122): find the email case-insensitively, take the up
to 60 characters before it, trim, strip a trailing separator run, search
`NAME_NEAR_EMAIL_RE`; the first whitespace-delimited token of the match
(`re.split(r"\s+", name)[0]` is its maximal whitespace-free prefix) is
accepted when at least two characters survive punctuation stripping. -/
def proximityFirstName (text email : String) : Option String :=
  match findSub (lowerStr email).data (lowerStr text).data with
  | none => none
  | some idx =>
    let left := stripWsL ((text.data.take idx).drop (idx - 60))
    let left2 := stripWsL (subTrailingSep left)
    match nameNearGo left2 with
    | none => none
    | some g =>
      let name := stripWsL g
      let first := stripSetL nameStripSet (name.takeWhile (fun c => !isSpaceC c))
      if first ≠ [] ∧ 2 ≤ first.length then some (titleStr ⟨first⟩) else none

/-- The local-part fallback of `guess_first_name` (dejobsextract.py:124-128):
before the first `@`, before the first `+`, the prefix preceding the first
`[._-]` separator (`re.split(r"[._\-]+", local)[0]`), letters only
(`re.sub(r"[^A-Za-z]", "", token)`), title-cased; `"there"` when no letter
survives. -/
def fallbackFirstName (email : String) : String :=
  let lp := email.data.takeWhile (fun c => c.toNat ≠ 64)
  let lp2 := lp.takeWhile (fun c => c.toNat ≠ 43)
  let token := lp2.takeWhile
    (fun c => !(c.toNat = 46 || c.toNat = 95 || c.toNat = 45))
  let token2 := token.filter isAlphaC
  if token2 ≠ [] then titleStr ⟨token2⟩ else "there"

/-- `guess_first_name` (dejobsextract.py:111): the proximity branch when it
returns a usable token, otherwise the local-part fallback. -/
def guess_first_name (text email : String) : String :=
  match proximityFirstName text email with
  | some n => n
  | none => fallbackFirstName email

/-- Python `str.replace` for single characters. -/
def replaceChar (o n : Char) (l : List Char) : List Char :=
  l.map (fun c => if c = o then n else c)

/-- `guess_company_from_email` (dejobsextract.py:131): the part after the
first `@` (`split("@", 1)[1]`), lowercased, split on `.` dropping empty
segments; the second-from-last segment when at least two remain, else the
only one; hyphens and underscores to spaces, stripped, title-cased.  The
`try/except` turns a missing `@` (`[1]` raises `IndexError`) or an all-empty
segment list (`parts[0]` raises) into `""`. -/
def guess_company_from_email (email : String) : String :=
  match findSub ['@'] email.data with
  | none => ""
  | some i =>
    let domain := (email.data.drop (i + 1)).map lowerChar
    let parts := (domain.splitOn '.').filter (· ≠ [])
    if parts.isEmpty then ""
    else
      let candidate :=
        if 2 ≤ parts.length then parts.getD (parts.length - 2) []
        else parts.getD 0 []
      titleStr ⟨stripWsL (replaceChar '_' ' ' (replaceChar '-' ' ' candidate))⟩

/-- A one-character string holding a single quote. -/
def squoS : String := ⟨[squo]⟩

/-- The snippet local of `build_custom_line` (dejobsextract.py:146-148):
whitespace runs collapsed to single spaces, trimmed, truncated to 137
characters plus `"..."` when longer than 140. -/
def snippetOf (message_text : String) : List Char :=
  let snippet := stripWsL (collapseWsL message_text.data)
  if 140 < snippet.length then snippet.take 137 ++ ['.', '.', '.'] else snippet

/-- `build_custom_line` (dejobsextract.py:145): the outreach template around
the chat name and the truncated snippet. -/
def build_custom_line (chat_name message_text : String) : String :=
  "Saw your message in the " ++ squoS ++ chat_name ++ squoS ++
    " Telegram group about data engineering-related roles: “" ++
    (⟨snippetOf message_text⟩ : String) ++ "”"

example : guess_first_name
    "Reach out to John Smith <john.smith@acme.com> for the data engineer role"
    "john.smith@acme.com" = "Reach" := by decide
example : guess_first_name "" "contact-info@x.io" = "Contact" := by decide
example : guess_first_name "" "x9@q.io" = "X" := by decide
example : guess_first_name "" "9@q.io" = "there" := by decide
example : guess_company_from_email "jane@amazon.com" = "Amazon" := by decide
example : guess_company_from_email "jane@mail.co.uk" = "Co" := by decide
example : guess_company_from_email "nodomain" = "" := by decide
example : guess_company_from_email "a@..." = "" := by decide
example : guess_company_from_email "a@my-shop.io" = "My Shop" := by decide
example : guess_first_name "ping bob@x.com" "bob@x.com" = "Ping" := by decide
example : guess_first_name "Bob <bob@x.com>" "bob@x.com" = "Bob" := by decide
example : guess_first_name "contact: bob@x.com" "bob@x.com" = "Contact" := by decide
example : guess_first_name "== A <a@b.co>" "a@b.co" = "A" := by decide
example : guess_first_name "  J <j@b.co>" "j@b.co" = "J" := by decide
example : guess_first_name ("O" ++ squoS ++ "Neil <on@b.co>") "on@b.co"
    = "O" ++ squoS ++ "Neil" := by decide
example : guess_first_name "mail Jean-Pierre <jp@b.co>" "jp@b.co" = "Mail" := by decide
example : guess_first_name "CALL NOW info@biz.org" "info@biz.org" = "Call" := by decide
example : guess_first_name "email me at foo.bar+spam@x.io" "foo.bar+spam@x.io"
    = "Email" := by decide

/-- One output row of the pipeline. -/
structure Contact where
  email : String
  first_name : String
  company : String
  custom_line : String
  deriving DecidableEq

/-- `msg.get("type") != "message"`, negated: Python equality with the string
literal succeeds only for an equal string value, so any non-string (or
absent) tag is skipped. -/
def isTypeMessage (msg : JsonVal) : Bool :=
  match jsonGet msg "type" with
  | some (.str t) => t == "message"
  | _ => false

/-- The flattened, trimmed text of one message (dejobsextract.py:161):
`flatten_text(msg.get("text")).strip()`. -/
def msgText (msg : JsonVal) : String :=
  ⟨stripWsL (flatten_text ((jsonGet msg "text").getD .null)).data⟩

/-- The record appended for a fresh email (dejobsextract.py:179-184). -/
def mkContact (chat_name text email : String) : Contact :=
  { email := email,
    first_name := guess_first_name text email,
    company := guess_company_from_email email,
    custom_line := build_custom_line chat_name text }

/-- The per-email body of the aggregator loop (dejobsextract.py:173-184):
an email whose lowercase form is already seen is skipped; otherwise it is
marked seen and a populated record is appended. -/
def procEmails (chat_name text : String) (st : List String × List Contact)
    (emails : List String) : List String × List Contact :=
  emails.foldl
    (fun st email =>
      if lowerStr email ∈ st.1 then st
      else (lowerStr email :: st.1, st.2 ++ [mkContact chat_name text email]))
    st

/-- The per-message body of the aggregator loop (dejobsextract.py:157-184):
skip non-`"message"` entries, empty flattened text, texts without a
role-family hit, and texts yielding no email. -/
def procMsg (chat_name : String) (st : List String × List Contact)
    (msg : JsonVal) : List String × List Contact :=
  if !isTypeMessage msg then st
  else
    let text := msgText msg
    if text = "" then st
    else if !DE_FAMILY_search text then st
    else
      let emails := extract_emails_list text
      if emails.isEmpty then st
      else procEmails chat_name text st emails

/-- The message list of the document: `data.get("messages", [])`.  §3
guarantees a sequence there; iterating any non-list shape would fault in
Python, which the model maps to the empty iteration. -/
def docMessages (data : JsonVal) : List JsonVal :=
  match (jsonGet data "messages").getD (.list []) with
  | .list l => l
  | _ => []

/-- `extract_contacts` (dejobsextract.py:152): fold the per-message loop
over the document's messages with the document-wide seen-set, starting
empty, and return the accumulated contact list.  `chat_name` is
`data.get("name", "")` (rendered by the f-string of `build_custom_line`). -/
def extract_contacts (data : JsonVal) : List Contact :=
  let chat_name := pyStr ((jsonGet data "name").getD (.str ""))
  ((docMessages data).foldl (procMsg chat_name) ([], [])).2

/-- The emails one message contributes, in extraction order: empty unless
the message passes every guard of the aggregator loop. -/
def msgEmails (msg : JsonVal) : List String :=
  if !isTypeMessage msg then []
  else
    let text := msgText msg
    if text = "" then []
    else if !DE_FAMILY_search text then []
    else extract_emails_list text

/-- Every email candidate of the document in encounter order: messages first
to last, within one message in extraction order. -/
def candidateEmails (data : JsonVal) : List String :=
  ((docMessages data).map msgEmails).flatten

/-- First occurrence wins, comparing lowercased: the reference order of the
spec's order-preservation property. -/
def firstOccCI (seen : List String) : List String → List String
  | [] => []
  | e :: es =>
    if lowerStr e ∈ seen then firstOccCI seen es
    else e :: firstOccCI (lowerStr e :: seen) es

/-- The seen-set after scanning a list of emails: each fresh lowercased
email is pushed in encounter order. -/
def seenAfter (seen : List String) : List String → List String
  | [] => seen
  | e :: es =>
    if lowerStr e ∈ seen then seenAfter seen es
    else seenAfter (lowerStr e :: seen) es

example :
    extract_contacts (.obj [("name", .str "DE Jobs"), ("messages", .list [
      .obj [("type", .str "message"),
            ("text", .str "ETL Engineer opening, ping a@x.com")],
      .obj [("type", .str "message"), ("text", .str "no role here b@y.com")],
      .obj [("type", .str "service"), ("text", .str "data engineer c@z.com")],
      .obj [("type", .str "message"),
            ("text", .list [.str "Data ", .obj [("text", .str "Engineer")],
                            .str " role: write A@X.COM or d@w.org"])]])])
    = [{ email := "a@x.com", first_name := "Ping", company := "X",
         custom_line := "Saw your message in the " ++ squoS ++ "DE Jobs" ++
           squoS ++ " Telegram group about data engineering-related roles: " ++
           "“ETL Engineer opening, ping a@x.com”" },
       { email := "d@w.org", first_name := "X.Com", company := "W",
         custom_line := "Saw your message in the " ++ squoS ++ "DE Jobs" ++
           squoS ++ " Telegram group about data engineering-related roles: " ++
           "“Data Engineer role: write A@X.COM or d@w.org”" }] := by
  decide

/-- C9: a list item that is a fragment dict whose `"text"` key is bound to
null contributes the textual rendering `"None"` (so
`flatten_text ["a ", ("text": null)] = "a None"`), while a fragment dict
without a `"text"` key contributes the empty string. -/
theorem C9_flatten_null_text :
    flatten_text (.list [.str "a ", .obj [("text", .null)]]) = "a None" ∧
    flatten_text (.list [.str "a ", .obj [("note", .str "x")]]) = "a " := by
  decide

/-- C2, counterexample: on `"contact: jane.doe@example.com."` the extractor
does NOT return `["jane.doe@example.com"]` — the negative lookahead
`(?![\w.+-])` rejects a match followed by the trailing period, so there is
no match at all. -/
theorem C2_counterexample :
    extract_emails_list "contact: jane.doe@example.com."
      ≠ ["jane.doe@example.com"] := by decide

/-- C2, amended: an email followed directly by a period yields no match
(the trailing period fails the negative lookahead before the post-match
punctuation strip could ever see it), and `"notanemail@@x"` yields no
match either. -/
theorem C2_email_boundary :
    extract_emails_list "contact: jane.doe@example.com." = [] ∧
    extract_emails_list "notanemail@@x" = [] := by decide

/-- C3, counterexample: on the documented text the guessed first name is
not `"John"`. -/
theorem C3_counterexample :
    guess_first_name
      "Reach out to John Smith <john.smith@acme.com> for the data engineer role"
      "john.smith@acme.com" ≠ "John" := by decide

/-- C3, amended: the proximity regex searches for its leftmost match, whose
group extends back to the start of the stripped window
(`"Reach out to John Smith"` is one single class run), so the first
whitespace-delimited token of the match is `"Reach"`. -/
theorem C3_name_proximity :
    guess_first_name
      "Reach out to John Smith <john.smith@acme.com> for the data engineer role"
      "john.smith@acme.com" = "Reach" := by decide

/-- C4: `jane@amazon.com` yields `"Amazon"`, but `jane@mail.co.uk` yields
`"Co"` — `parts[-2]` of `["mail", "co", "uk"]` is `"co"`, contradicting the
code's own inline comment (`microsoft.co.uk -> microsoft`) and the claimed
`"Mail"`. -/
theorem C4_company_eval :
    guess_company_from_email "jane@amazon.com" = "Amazon" ∧
    guess_company_from_email "jane@mail.co.uk" = "Co" := by decide

/-- C6: whenever the whitespace-collapsed, trimmed message text exceeds 140
characters, the snippet quoted inside `build_custom_line`'s result is
exactly 140 characters long — the collapsed text's first 137 characters
followed by the three-character ellipsis marker at positions 138–140. -/
theorem C6_snippet_truncation (chat_name message_text : String)
    (h : 140 < (stripWsL (collapseWsL message_text.data)).length) :
    (snippetOf message_text).length = 140 ∧
    (snippetOf message_text).take 137
      = (stripWsL (collapseWsL message_text.data)).take 137 ∧
    (snippetOf message_text).drop 137 = ['.', '.', '.'] ∧
    build_custom_line chat_name message_text
      = "Saw your message in the " ++ squoS ++ chat_name ++ squoS ++
        " Telegram group about data engineering-related roles: “" ++
        (⟨snippetOf message_text⟩ : String) ++ "”" := by
  have hsnip : snippetOf message_text
      = (stripWsL (collapseWsL message_text.data)).take 137 ++ ['.', '.', '.'] := by
    unfold snippetOf
    rw [if_pos h]
  have hlen : ((stripWsL (collapseWsL message_text.data)).take 137).length = 137 := by
    rw [List.length_take]
    omega
  refine ⟨?_, ?_, ?_, rfl⟩
  · rw [hsnip, List.length_append, hlen]
    rfl
  · rw [hsnip, List.take_append_of_le_length (by omega)]
    simp [List.take_take]
  · rw [hsnip]
    have hd := List.drop_left
      ((stripWsL (collapseWsL message_text.data)).take 137) ['.', '.', '.']
    rw [hlen] at hd
    exact hd

set_option maxRecDepth 4000 in
/-- C6 witness: a message of 200 non-whitespace characters exceeds the
threshold and is truncated as stated. -/
theorem C6_snippet_truncation_witness :
    140 < (stripWsL (collapseWsL (String.mk (List.replicate 200 'a')).data)).length ∧
    ((snippetOf (String.mk (List.replicate 200 'a'))).length = 140 ∧
     (snippetOf (String.mk (List.replicate 200 'a'))).take 137
       = (stripWsL (collapseWsL (String.mk (List.replicate 200 'a')).data)).take 137 ∧
     (snippetOf (String.mk (List.replicate 200 'a'))).drop 137 = ['.', '.', '.'] ∧
     build_custom_line "g" (String.mk (List.replicate 200 'a'))
       = "Saw your message in the " ++ squoS ++ "g" ++ squoS ++
         " Telegram group about data engineering-related roles: “" ++
         (⟨snippetOf (String.mk (List.replicate 200 'a'))⟩ : String) ++ "”") :=
  ⟨by decide, C6_snippet_truncation "g" (String.mk (List.replicate 200 'a')) (by decide)⟩

theorem toNat_ofNat_valid {n : Nat} (h : n < 55296) : (Char.ofNat n).toNat = n := by
  unfold Char.ofNat
  rw [dif_pos (Or.inl h)]
  rfl

theorem isUpperAZ_iff {c : Char} :
    isUpperAZ c = true ↔ 65 ≤ c.toNat ∧ c.toNat ≤ 90 := by
  simp [isUpperAZ]

theorem isLowerAZ_iff {c : Char} :
    isLowerAZ c = true ↔ 97 ≤ c.toNat ∧ c.toNat ≤ 122 := by
  simp [isLowerAZ]

theorem isSpaceC_iff {c : Char} :
    isSpaceC c = true ↔
      c.toNat = 32 ∨ c.toNat = 9 ∨ c.toNat = 10 ∨ c.toNat = 13 ∨
        c.toNat = 11 ∨ c.toNat = 12 := by
  simp [isSpaceC]
  tauto

theorem isSpaceC_eq_false_of_ge {c : Char} (h : 33 ≤ c.toNat) :
    isSpaceC c = false := by
  rw [Bool.eq_false_iff]
  intro hs
  rcases isSpaceC_iff.mp hs with h' | h' | h' | h' | h' | h' <;> omega

theorem isSpaceC_eq_false_of_isAlphaC {c : Char} (h : isAlphaC c = true) :
    isSpaceC c = false := by
  apply isSpaceC_eq_false_of_ge
  simp only [isAlphaC, Bool.or_eq_true] at h
  rcases h with hu | hl
  · obtain ⟨h1, h2⟩ := isUpperAZ_iff.mp hu
    omega
  · obtain ⟨h1, h2⟩ := isLowerAZ_iff.mp hl
    omega

theorem isSpaceC_lowerChar (c : Char) : isSpaceC (lowerChar c) = isSpaceC c := by
  unfold lowerChar
  split
  next hu =>
    obtain ⟨h1, h2⟩ := isUpperAZ_iff.mp hu
    have ht : (Char.ofNat (c.toNat + 32)).toNat = c.toNat + 32 :=
      toNat_ofNat_valid (by omega)
    rw [isSpaceC_eq_false_of_ge (by omega), isSpaceC_eq_false_of_ge (by omega)]
  next => rfl

theorem isSpaceC_upperChar (c : Char) : isSpaceC (upperChar c) = isSpaceC c := by
  unfold upperChar
  split
  next hl =>
    obtain ⟨h1, h2⟩ := isLowerAZ_iff.mp hl
    have ht : (Char.ofNat (c.toNat - 32)).toNat = c.toNat - 32 :=
      toNat_ofNat_valid (by omega)
    rw [isSpaceC_eq_false_of_ge (by omega), isSpaceC_eq_false_of_ge (by omega)]
  next => rfl

theorem titleGo_ne_nil {b : Bool} {l : List Char} (h : l ≠ []) :
    titleGo b l ≠ [] := by
  cases l with
  | nil => exact absurd rfl h
  | cons c cs => simp [titleGo]

theorem titleGo_nonspace {l : List Char} (h : ∀ c ∈ l, isSpaceC c = false) :
    ∀ {b : Bool}, ∀ d ∈ titleGo b l, isSpaceC d = false := by
  induction l with
  | nil => intro b d hd; simp [titleGo] at hd
  | cons c cs ih =>
    intro b d hd
    simp only [titleGo, List.mem_cons] at hd
    rcases hd with hd | hd
    · subst hd
      have hc := h c (List.mem_cons_self ..)
      split
      · split
        · rw [isSpaceC_lowerChar]; exact hc
        · rw [isSpaceC_upperChar]; exact hc
      · exact hc
    · exact ih (fun e he => h e (List.mem_cons_of_mem _ he)) d hd

theorem mem_stripSetL {cset l : List Char} {c : Char} (h : c ∈ stripSetL cset l) :
    c ∈ l := by
  unfold stripSetL dropEndWhile at h
  have h1 := List.mem_reverse.mp h
  have h2 := (List.dropWhile_sublist _).mem h1
  have h3 := List.mem_reverse.mp h2
  exact (List.dropWhile_sublist _).mem h3

/-- Inverting the proximity branch: any returned name is the title-casing
of a nonempty, whitespace-free token of length at least 2. -/
theorem proximityFirstName_eq_some {text email n : String}
    (h : proximityFirstName text email = some n) :
    ∃ first : List Char, first ≠ [] ∧ 2 ≤ first.length ∧
      (∀ c ∈ first, isSpaceC c = false) ∧ n = titleStr ⟨first⟩ := by
  unfold proximityFirstName at h
  split at h
  · exact absurd h (by simp)
  · dsimp only at h
    split at h
    · exact absurd h (by simp)
    next g heq =>
      split at h
      next hcond =>
        refine ⟨_, hcond.1, hcond.2, fun c hc => ?_, by
          injection h with h'; exact h'.symm⟩
        have hmem := mem_stripSetL hc
        have := List.mem_takeWhile_imp hmem
        simpa using this
      · exact absurd h (by simp)

/-- C7: for every pair of strings, `guess_first_name` is a total function
(no exception can arise in the embedding) and its result is non-empty: the
proximity branch title-cases a token guarded to be nonempty, and the
fallback returns either the title-cased letters of the local part or the
literal `"there"`. -/
theorem C7_first_name_total_nonempty (text email : String) :
    guess_first_name text email ≠ "" := by
  unfold guess_first_name
  cases hp : proximityFirstName text email with
  | some n =>
    obtain ⟨first, hne, _, _, hn⟩ := proximityFirstName_eq_some hp
    subst hn
    intro hc
    exact titleGo_ne_nil hne (congrArg String.data hc)
  | none =>
    simp only [fallbackFirstName]
    split
    next hne =>
      intro hc
      exact titleGo_ne_nil hne (congrArg String.data hc)
    next => decide

/-- C10: for every pair of strings, the result of `guess_first_name`
contains no whitespace character: the proximity token is a whitespace-free
prefix (split on `\s+`), the fallback token is letters-only, `"there"` is
whitespace-free, and title-casing preserves whitespace-freeness. -/
theorem C10_first_name_whitespace_free (text email : String) :
    (guess_first_name text email).data.all (fun c => !isSpaceC c) = true := by
  rw [List.all_eq_true]
  intro c hc
  rw [Bool.not_eq_true']
  revert hc
  unfold guess_first_name
  cases hp : proximityFirstName text email with
  | some n =>
    obtain ⟨first, _, _, hfree, hn⟩ := proximityFirstName_eq_some hp
    subst hn
    intro hc
    exact titleGo_nonspace hfree c hc
  | none =>
    simp only [fallbackFirstName]
    split
    next =>
      intro hc
      refine titleGo_nonspace (fun e he => ?_) c hc
      exact isSpaceC_eq_false_of_isAlphaC (List.of_mem_filter he)
    next =>
      intro hc
      have hall : ("there" : String).data.all (fun c => !isSpaceC c) = true := by
        decide
      simpa using List.all_eq_true.mp hall c hc

theorem litCI_cons {p : Char} {ps l r : List Char}
    (h : litCI (p :: ps) l = some r) : ∃ c cs, l = c :: cs ∧ lowerChar c = p := by
  cases l with
  | nil => simp [litCI] at h
  | cons c cs =>
    refine ⟨c, cs, rfl, ?_⟩
    by_contra hne
    simp [litCI, hne] at h

theorem leadLit_head {p : Char} {ps l : List Char} {k : List Char → Bool}
    (h : leadLit (p :: ps) k l = true) : ∃ c cs, l = c :: cs ∧ lowerChar c = p := by
  unfold leadLit at h
  split at h
  next heq => exact litCI_cons heq
  next => exact absurd h (by simp)

theorem isAlphaC_of_lowerChar_eq {c d : Char} (h : lowerChar c = d)
    (hd : isAlphaC d = true) : isAlphaC c = true := by
  unfold lowerChar at h
  split at h
  next hu => simp [isAlphaC, hu]
  next => subst h; exact hd

theorem leadLit_alpha {p : Char} {ps cs : List Char} {k : List Char → Bool}
    {c : Char} (h : leadLit (p :: ps) k (c :: cs) = true)
    (hp : isAlphaC p = true) : isAlphaC c = true := by
  obtain ⟨c', cs', heq, hlow⟩ := leadLit_head h
  cases heq
  exact isAlphaC_of_lowerChar_eq hlow hp

/-- Every `DE_FAMILY_RE` alternative opens with a letter literal, so a match
starting at a position forces that position to hold a letter. -/
theorem deBodies_head_alpha {c : Char} {cs : List Char}
    (h : deBodies (c :: cs) = true) : isAlphaC c = true := by
  unfold deBodies at h
  simp only [Bool.or_eq_true] at h
  rcases h with
    ((((((((((((h | h) | h) | h) | h) | h) | h) | h) | h) | h) | h) | h) | h) | h
  · unfold deBody1 at h
    exact leadLit_alpha h (by decide)
  · unfold deBody2 at h
    exact leadLit_alpha h (by decide)
  · unfold deBody3 at h
    exact leadLit_alpha h (by decide)
  · unfold deBody4 at h
    exact leadLit_alpha h (by decide)
  · unfold deBody5 at h
    exact leadLit_alpha h (by decide)
  · unfold deBody6 at h
    exact leadLit_alpha h (by decide)
  · unfold deBody7 at h
    exact leadLit_alpha h (by decide)
  · unfold deBody8 at h
    exact leadLit_alpha h (by decide)
  · unfold deBody9 at h
    simp only [Bool.or_eq_true] at h
    rcases h with h | h
    · exact leadLit_alpha h (by decide)
    · exact leadLit_alpha h (by decide)
  · unfold deBody10 at h
    exact leadLit_alpha h (by decide)
  · unfold deBody11 at h
    exact leadLit_alpha h (by decide)
  · unfold deBody12 at h
    simp only [Bool.or_eq_true] at h
    rcases h with ((h | h) | h) | h
    · exact leadLit_alpha h (by decide)
    · exact leadLit_alpha h (by decide)
    · exact leadLit_alpha h (by decide)
    · exact leadLit_alpha h (by decide)
  · unfold deBody13 at h
    exact leadLit_alpha h (by decide)
  · unfold deBody14 at h
    simp only [Bool.or_eq_true] at h
    rcases h with (h | h) | h
    · exact leadLit_alpha h (by decide)
    · exact leadLit_alpha h (by decide)
    · exact leadLit_alpha h (by decide)

theorem deFamilyGo_alpha {prev : Option Char} {l : List Char}
    (h : deFamilyGo prev l = true) : ∃ c ∈ l, isAlphaC c = true := by
  induction l generalizing prev with
  | nil => simp [deFamilyGo] at h
  | cons c cs ih =>
    simp only [deFamilyGo, Bool.or_eq_true, Bool.and_eq_true] at h
    rcases h with ⟨_, hb⟩ | h
    · exact ⟨c, List.mem_cons_self .., deBodies_head_alpha hb⟩
    · obtain ⟨d, hd, hda⟩ := ih h
      exact ⟨d, List.mem_cons_of_mem _ hd, hda⟩

/-- C8: the role classifier rejects every string without a letter (each
alternative of `DE_FAMILY_RE` begins with a letter literal), and rejects a
single bare generic-role token: the text `"engineer"` alone does not
match. -/
theorem C8_role_family_gating :
    (∀ s : String, (∀ c ∈ s.data, isAlphaC c = false) →
      DE_FAMILY_search s = false) ∧
    DE_FAMILY_search "engineer" = false := by
  refine ⟨fun s hs => ?_, by decide⟩
  rw [Bool.eq_false_iff]
  intro hmatch
  unfold DE_FAMILY_search at hmatch
  obtain ⟨c, hc, hca⟩ := deFamilyGo_alpha hmatch
  rw [hs c hc] at hca
  exact Bool.false_ne_true hca

/-- C8 witness: the all-non-alphabetic string `"123 456!"` satisfies the
hypothesis and is rejected. -/
theorem C8_role_family_gating_witness :
    (∀ c ∈ ("123 456!" : String).data, isAlphaC c = false) ∧
    DE_FAMILY_search "123 456!" = false :=
  ⟨by decide, C8_role_family_gating.1 "123 456!" (by decide)⟩

/-- The inner email loop appends exactly the first-occurrence emails and
extends the seen-set accordingly. -/
theorem procEmails_eq (chat text : String) :
    ∀ (es seen : List String) (acc : List Contact),
      procEmails chat text (seen, acc) es
        = (seenAfter seen es,
           acc ++ (firstOccCI seen es).map (mkContact chat text)) := by
  intro es
  induction es with
  | nil =>
    intro seen acc
    simp [procEmails, seenAfter, firstOccCI]
  | cons e es ih =>
    intro seen acc
    by_cases hm : lowerStr e ∈ seen
    · have h1 : procEmails chat text (seen, acc) (e :: es)
          = procEmails chat text (seen, acc) es := by
        simp [procEmails, hm]
      rw [h1, ih]
      simp [seenAfter, firstOccCI, hm]
    · have h1 : procEmails chat text (seen, acc) (e :: es)
          = procEmails chat text
              (lowerStr e :: seen, acc ++ [mkContact chat text e]) es := by
        simp [procEmails, hm]
      rw [h1, ih]
      simp [seenAfter, firstOccCI, hm]

/-- One message step of the aggregator, expressed through `msgEmails`. -/
theorem procMsg_eq (chat : String) (msg : JsonVal) (seen : List String)
    (acc : List Contact) :
    procMsg chat (seen, acc) msg
      = (seenAfter seen (msgEmails msg),
         acc ++ (firstOccCI seen (msgEmails msg)).map
           (mkContact chat (msgText msg))) := by
  by_cases h1 : isTypeMessage msg
  · by_cases h2 : msgText msg = ""
    · simp [procMsg, msgEmails, h1, h2, seenAfter, firstOccCI]
    · by_cases h3 : DE_FAMILY_search (msgText msg)
      · by_cases h4 : (extract_emails_list (msgText msg)).isEmpty
        · have h4' : extract_emails_list (msgText msg) = [] := by
            simpa using h4
          simp [procMsg, msgEmails, h1, h2, h3, h4, h4', seenAfter, firstOccCI]
        · simp [procMsg, msgEmails, h1, h2, h3, h4, procEmails_eq]
      · simp [procMsg, msgEmails, h1, h2, h3, seenAfter, firstOccCI]
  · simp [procMsg, msgEmails, h1, seenAfter, firstOccCI]

theorem firstOccCI_append (l1 : List String) :
    ∀ (seen : List String) (l2 : List String),
      firstOccCI seen (l1 ++ l2)
        = firstOccCI seen l1 ++ firstOccCI (seenAfter seen l1) l2 := by
  induction l1 with
  | nil => intro seen l2; simp [firstOccCI, seenAfter]
  | cons e es ih =>
    intro seen l2
    by_cases hm : lowerStr e ∈ seen
    · simp [firstOccCI, seenAfter, hm, ih]
    · simp [firstOccCI, seenAfter, hm, ih]

theorem map_email_mkContact (chat txt : String) (l : List String) :
    (l.map (mkContact chat txt)).map Contact.email = l := by
  rw [List.map_map]
  have hcomp : Contact.email ∘ mkContact chat txt = id := by
    funext x
    rfl
  rw [hcomp, List.map_id]

/-- The whole message fold appends exactly the first-occurrence emails of
the concatenated candidate stream. -/
theorem foldl_procMsg_emails (chat : String) :
    ∀ (ms : List JsonVal) (seen : List String) (acc : List Contact),
      ((ms.foldl (procMsg chat) (seen, acc)).2).map Contact.email
        = acc.map Contact.email
          ++ firstOccCI seen ((ms.map msgEmails).flatten) := by
  intro ms
  induction ms with
  | nil => intro seen acc; simp [firstOccCI]
  | cons m ms ih =>
    intro seen acc
    rw [List.foldl_cons, procMsg_eq, ih, List.map_cons, List.flatten_cons,
      firstOccCI_append]
    rw [List.map_append, map_email_mkContact, List.append_assoc]

/-- Lowercased, the first-occurrence list is duplicate-free and disjoint
from the initial seen-set. -/
theorem firstOccCI_lower_nodup :
    ∀ (l seen : List String),
      (∀ e ∈ firstOccCI seen l, lowerStr e ∉ seen) ∧
      ((firstOccCI seen l).map lowerStr).Nodup := by
  intro l
  induction l with
  | nil => intro seen; simp [firstOccCI]
  | cons e es ih =>
    intro seen
    by_cases hm : lowerStr e ∈ seen
    · simpa [firstOccCI, hm] using ih seen
    · obtain ⟨ih1, ih2⟩ := ih (lowerStr e :: seen)
      constructor
      · intro x hx
        simp only [firstOccCI, if_neg hm, List.mem_cons] at hx
        rcases hx with rfl | hx
        · exact hm
        · intro hc
          exact ih1 x hx (List.mem_cons_of_mem _ hc)
      · simp only [firstOccCI, if_neg hm, List.map_cons, List.nodup_cons]
        refine ⟨?_, ih2⟩
        intro hc
        obtain ⟨x, hx, hxe⟩ := List.mem_map.mp hc
        apply ih1 x hx
        rw [hxe]
        exact List.mem_cons_self ..

/-- C5: for every document, the contact order is exactly the order in which
each email was first encountered (case-insensitively) while scanning the
messages first to last, within one message in extraction order. -/
theorem C5_order_preservation (data : JsonVal) :
    (extract_contacts data).map Contact.email
      = firstOccCI [] (candidateEmails data) := by
  unfold extract_contacts candidateEmails
  rw [foldl_procMsg_emails]
  simp

/-- C1: in the output of `extract_contacts`, no two contacts share the same
lowercased email. -/
theorem C1_email_uniqueness (data : JsonVal) :
    ((extract_contacts data).map (fun c => lowerStr c.email)).Nodup := by
  have hmap : (extract_contacts data).map Contact.email
      = firstOccCI [] (candidateEmails data) := by
    unfold extract_contacts candidateEmails
    rw [foldl_procMsg_emails]
    simp
  have hsplit : (extract_contacts data).map (fun c => lowerStr c.email)
      = ((extract_contacts data).map Contact.email).map lowerStr := by
    rw [List.map_map]
    rfl
  rw [hsplit, hmap]
  exact (firstOccCI_lower_nodup _ _).2

end DEJobs
